import Mathlib

/-!
Shallow embedding of the 15-puzzle engine (`src/board.rs`, `src/game.rs`,
`src/operation.rs`, `src/error.rs`, `src/main.rs`).

Tiles are the `u8` instantiation of the `Tile` trait (`main.rs`): a tile is a
`Nat`, `0` is the blank.  The board array `[T; 16]` is modelled as a
`List Nat`; the Rust code only ever indexes it in bounds (out-of-bounds
`slice::swap` would panic), so theorems about boards carry the corresponding
bounds hypotheses.  `usize`/`isize` arithmetic is modelled with `Nat`/`Int`;
all the values involved stay far below any overflow boundary.
-/

namespace FifteenPuzzle

/-- `<u8 as Tile>::is_blank` (`main.rs`): a tile is blank iff it is `0`. -/
def is_blank (t : Nat) : Bool := t == 0

/-- `<u8 as Tile>::get_solved_pos` (`main.rs`): the blank solves at index 15,
tile `n` at index `n - 1`. -/
def get_solved_pos (t : Nat) : Nat := if t == 0 then 15 else t - 1

/-- `Operation` (`operation.rs`): the four slide directions. -/
inductive Operation where
  | Up
  | Down
  | Left
  | Right
deriving DecidableEq, Repr

/-- `Operation::from_code` (`operation.rs`): maps `w a s d` to directions. -/
def Operation.from_code (code : Char) : Option Operation :=
  match code with
  | 'w' => some Operation.Up
  | 'a' => some Operation.Left
  | 's' => some Operation.Down
  | 'd' => some Operation.Right
  | _ => none

/-- `GameError` (`error.rs`).  `Other` boxes an arbitrary error value in Rust;
the payload is irrelevant to control flow and is dropped here. -/
inductive GameError where
  | Exit
  | Other
deriving DecidableEq, Repr

/-- One result of `reader.bytes().next()`: `Except.error ()` models
`Some(Err(_))` (a read error), `Except.ok b` models `Some(Ok(b))`.  A reader
is modelled as the finite list of results it yields before it is exhausted;
after the list, every poll returns `None` forever. -/
abbrev ReadItem := Except Unit Nat

/-- `Operation::get_next` (`operation.rs`).  The Rust `loop` polls the reader
once per iteration with `if let Some(Ok(byte))`; a `None` (exhausted reader)
or `Some(Err(_))` simply falls through to the next iteration.  Once the
finite stream is exhausted every further poll yields `None`, so the loop
never returns: that case is modelled as `none`. -/
def Operation.get_next : List ReadItem → Option (Except GameError Operation)
  | [] => none
  | (Except.error _) :: rest => Operation.get_next rest
  | (Except.ok byte) :: rest =>
    if byte == 3 then
      some (Except.error GameError.Exit)
    else
      match Operation.from_code (Char.ofNat byte) with
      | some op => some (Except.ok op)
      | none => Operation.get_next rest

/-- `Board` (`board.rs`): the 16-tile array and the cached blank index. -/
structure Board where
  array : List Nat
  blank_idx : Nat
deriving DecidableEq, Repr

/-- Well-formedness from the spec's data model: the array has 16 cells,
`blank_idx` is in bounds, and it indexes the unique blank cell. -/
def Board.wf (b : Board) : Bool :=
  b.array.length == 16 && b.blank_idx < 16 &&
    (List.range 16).all fun i => is_blank (b.array.getD i 0) == decide (i = b.blank_idx)

/-- The inner double loop of `Board::is_solvable` (`board.rs`): the number of
ordered pairs `i < j` with `arr[i].get_solved_pos() > arr[j].get_solved_pos()`. -/
def Board.inversions : List Nat → Nat
  | [] => 0
  | x :: rest =>
    rest.countP (fun y => get_solved_pos y < get_solved_pos x) + Board.inversions rest

/-- `Board::is_solvable` (`board.rs`): the 15-puzzle parity rule. -/
def Board.is_solvable (arr : List Nat) (blank : Nat) : Bool :=
  let pos_from_bottom := 4 - blank / 4
  let inv := Board.inversions arr
  (pos_from_bottom % 2 == 0 && inv % 2 != 0) ||
    (pos_from_bottom % 2 != 0 && inv % 2 == 0)

/-- `Board::from_existing_array` (`board.rs`): adopt an array, locating the
blank by scan.  Rust `unwrap`s the scan; when no blank exists it panics —
`List.findIdx` then returns the length, and callers only use this with a
blank present. -/
def Board.from_existing_array (array : List Nat) : Board :=
  { array := array, blank_idx := array.findIdx fun t => is_blank t }

/-- `Board::new` (`board.rs`): keep drawing shuffles until a solvable one
appears.  The RNG is external; it is modelled as the list of shuffled arrays
the loop observes.  An exhausted list means the loop has not yet accepted a
draw (it would keep shuffling), and a draw without a blank would panic on
`unwrap`; both cases yield `none` (no board is returned). -/
def Board.new : List (List Nat) → Option Board
  | [] => none
  | a :: rest =>
    let blank_idx := a.findIdx fun t => is_blank t
    if blank_idx < a.length then
      if Board.is_solvable a blank_idx then
        some (Board.from_existing_array a)
      else
        Board.new rest
    else
      none

/-- The `match` at the top of `Board::process_operation` (`board.rs`). -/
def Operation.offset : Operation → Int
  | Operation.Up => 4
  | Operation.Down => -4
  | Operation.Left => 1
  | Operation.Right => -1

/-- `slice::swap` on a list: exchange the entries at `i` and `j`.  Exact for
in-bounds indices, which is the only way the Rust code calls it (out of
bounds it would panic). -/
def listSwap (l : List Nat) (i j : Nat) : List Nat :=
  (l.set i (l.getD j 0)).set j (l.getD i 0)

/-- `Board::process_operation` (`board.rs`): returns whether a swap happened
together with the resulting board (Rust mutates in place). -/
def Board.process_operation (b : Board) (op : Operation) : Bool × Board :=
  let swap_idx : Int := (b.blank_idx : Int) + op.offset
  if swap_idx < 0 || b.array.length ≤ swap_idx.toNat then
    (false, b)
  else if b.blank_idx % 4 == 0 && (b.blank_idx : Int) == swap_idx + 1 then
    (false, b)
  else if swap_idx % 4 == 0 && (b.blank_idx : Int) == swap_idx - 1 then
    (false, b)
  else
    (true, { array := listSwap b.array b.blank_idx swap_idx.toNat,
             blank_idx := swap_idx.toNat })

/-- `Board::is_solved` (`board.rs`): every tile sits at its solved position. -/
def Board.is_solved (b : Board) : Bool :=
  (List.range b.array.length).all fun idx => idx == get_solved_pos (b.array.getD idx 0)

/-- Apply a sequence of operations to a board, keeping only the board. -/
def Board.run (b : Board) : List Operation → Board
  | [] => b
  | op :: ops => Board.run (b.process_operation op).2 ops

/-- How many operations of the sequence produce a swap (`true` results),
threading the board state through. -/
def Board.countSwaps (b : Board) : List Operation → Nat
  | [] => 0
  | op :: ops =>
    (if (b.process_operation op).1 then 1 else 0) + Board.countSwaps (b.process_operation op).2 ops

/-- `GameState` (`game.rs`). -/
inductive GameState where
  | InProgress
  | Finished
deriving DecidableEq, Repr

/-- `Game` (`game.rs`). -/
structure Game where
  board : Board
  current_state : GameState
  move_count : Nat
deriving DecidableEq, Repr

/-- `Game::with_board` (`game.rs`). -/
def Game.with_board (b : Board) : Game :=
  { board := b, current_state := GameState.InProgress, move_count := 0 }

/-- `Game::is_done` (`game.rs`). -/
def Game.is_done (g : Game) : Bool := g.current_state == GameState.Finished

/-- `Game::moves` (`game.rs`). -/
def Game.moves (g : Game) : Nat := g.move_count

/-- `Game::process_operation` (`game.rs`): forward to the board, bump the
counter on a swap, then mark the game finished if the board is solved. -/
def Game.process_operation (g : Game) (op : Operation) : Game :=
  let r := g.board.process_operation op
  let g1 : Game := { board := r.2,
                     current_state := g.current_state,
                     move_count := if r.1 then g.move_count + 1 else g.move_count }
  if g1.board.is_solved then
    { g1 with current_state := GameState.Finished }
  else
    g1

/-- Apply a sequence of operations to a game. -/
def Game.run (g : Game) : List Operation → Game
  | [] => g
  | op :: ops => Game.run (g.process_operation op) ops

/-- The solved `u8` array used by the repository's tests. -/
def solvedArray : List Nat := [1, 2, 3, 4, 5, 6, 7, 8, 9, 10, 11, 12, 13, 14, 15, 0]

/-- A byte the `get_next` loop reacts to: the ETX byte `0x03` or a byte that
`from_code` recognises. -/
def significant (b : Nat) : Bool := b == 3 || (Operation.from_code (Char.ofNat b)).isSome

/-- The first significant byte successfully read from the stream, skipping
read errors and unrecognised bytes. -/
def firstSig : List ReadItem → Option Nat
  | [] => none
  | (Except.error _) :: rest => firstSig rest
  | (Except.ok b) :: rest => if significant b then some b else firstSig rest

end FifteenPuzzle

deriving instance DecidableEq for Except

namespace FifteenPuzzle

lemma Board.wf_length {b : Board} (h : b.wf = true) : b.array.length = 16 := by
  simp only [Board.wf, Bool.and_eq_true, beq_iff_eq, decide_eq_true_eq] at h
  exact h.1.1

lemma Board.wf_blank_lt {b : Board} (h : b.wf = true) : b.blank_idx < 16 := by
  simp only [Board.wf, Bool.and_eq_true, beq_iff_eq, decide_eq_true_eq] at h
  exact h.1.2

/-- C4: starting a `Game` on the already-solved array, the first
`process_operation Operation.Left` call is rejected by the board (the blank
is at index 15, so the target 16 is out of range) but the solved check still
runs afterwards: the game reports done with a move count of 0. -/
theorem c4_solved_board_first_rejected_call_finishes :
    ((Game.with_board (Board.from_existing_array solvedArray)).process_operation
        Operation.Left).is_done = true ∧
      ((Game.with_board (Board.from_existing_array solvedArray)).process_operation
        Operation.Left).moves = 0 := by
  decide

/-- On a stream with no significant byte (and hence on a reader exhausted
before yielding `0x03` or one of `w a s d`), `get_next` never returns: the
Rust loop keeps polling the exhausted reader forever.  `none` is the model of
that non-returning run. -/
theorem c2_get_next_exhausted_never_returns (s : List ReadItem)
    (h : firstSig s = none) : Operation.get_next s = none := by
  induction s with
  | nil => rfl
  | cons item rest ih =>
    cases item with
    | error u =>
      rw [firstSig] at h
      exact ih h
    | ok b =>
      rw [firstSig] at h
      by_cases hs : significant b = true
      · rw [if_pos hs] at h
        exact absurd h (by simp)
      · rw [if_neg hs] at h
        have hb3 : (b == 3) = false := by
          simp only [significant, Bool.or_eq_true] at hs
          simpa using fun hx => hs (Or.inl hx)
        have hc : Operation.from_code (Char.ofNat b) = none := by
          cases hcc : Operation.from_code (Char.ofNat b) with
          | none => rfl
          | some op => exact absurd (by simp [significant, hcc]) hs
        rw [Operation.get_next, if_neg (by simpa using hb3), hc]
        exact ih h

theorem c2_get_next_exhausted_never_returns_witness :
    firstSig [Except.ok 120] = none ∧ Operation.get_next [Except.ok 120] = none :=
  ⟨by decide, c2_get_next_exhausted_never_returns [Except.ok 120] (by decide)⟩

lemma get_next_error_is_exit (s : List ReadItem) (e : GameError)
    (h : Operation.get_next s = some (Except.error e)) : e = GameError.Exit := by
  induction s with
  | nil => exact absurd h (by simp [Operation.get_next])
  | cons item rest ih =>
    cases item with
    | error u => exact ih (by rw [Operation.get_next] at h; exact h)
    | ok b =>
      rw [Operation.get_next] at h
      by_cases hb : (b == 3) = true
      · rw [if_pos hb] at h
        have := Option.some.inj h
        cases this
        rfl
      · rw [if_neg hb] at h
        cases hcc : Operation.from_code (Char.ofNat b) with
        | none => rw [hcc] at h; exact ih h
        | some op =>
          rw [hcc] at h
          exact absurd (Option.some.inj h) (by simp)

lemma get_next_error_iff_firstSig (s : List ReadItem) :
    (∃ e, Operation.get_next s = some (Except.error e)) ↔ firstSig s = some 3 := by
  induction s with
  | nil => simp [Operation.get_next, firstSig]
  | cons item rest ih =>
    cases item with
    | error u => simpa [Operation.get_next, firstSig] using ih
    | ok b =>
      by_cases hb : (b == 3) = true
      · have hb3 : b = 3 := by simpa using hb
        subst hb3
        simp [Operation.get_next, firstSig, significant]
      · cases hcc : Operation.from_code (Char.ofNat b) with
        | none =>
          have hsig : significant b = false := by
            simp [significant, hcc, hb]
          simpa [Operation.get_next, firstSig, hb, hcc, hsig] using ih
        | some op =>
          have hsig : significant b = true := by simp [significant, hcc]
          have hbne : b ≠ 3 := by simpa using hb
          simp [Operation.get_next, firstSig, hb, hcc, hsig, hbne]

/-- C10: the input loop's only error is `Exit`: every error `get_next` returns
is `GameError.Exit`; it errors exactly when the first significant byte read is
`0x03`; and a read error from the underlying reader is silently skipped, not
propagated. -/
theorem c10_get_next_error_taxonomy :
    (∀ s e, Operation.get_next s = some (Except.error e) → e = GameError.Exit) ∧
      (∀ s, (∃ e, Operation.get_next s = some (Except.error e)) ↔ firstSig s = some 3) ∧
      (∀ (u : Unit) (rest : List ReadItem),
        Operation.get_next (Except.error u :: rest) = Operation.get_next rest) :=
  ⟨get_next_error_is_exit, get_next_error_iff_firstSig, fun _ _ => rfl⟩

theorem c10_get_next_error_taxonomy_witness :
    firstSig [Except.ok 120, Except.error (), Except.ok 3] = some 3 ∧
      GameError.Exit = GameError.Exit :=
  ⟨(c10_get_next_error_taxonomy.2.1 [Except.ok 120, Except.error (), Except.ok 3]).mp
      ⟨GameError.Exit, by decide⟩,
    c10_get_next_error_taxonomy.1 [Except.ok 3] GameError.Exit (by decide)⟩

/-- C5: every board the shuffle loop accepts satisfies the parity rule:
exactly one of `row_from_bottom = 4 - blank_idx / 4` and the inversion count
(over all ordered pairs, the blank participating with solved position 15) is
even. -/
theorem c5_new_boards_are_solvable (shuffles : List (List Nat)) (b : Board)
    (h : Board.new shuffles = some b) :
    ((4 - b.blank_idx / 4) % 2 = 0 ↔ ¬ Board.inversions b.array % 2 = 0) := by
  induction shuffles with
  | nil => exact absurd h (by simp [Board.new])
  | cons a rest ih =>
    rw [Board.new] at h
    by_cases h1 : (a.findIdx fun t => is_blank t) < a.length
    · rw [if_pos h1] at h
      by_cases h2 : Board.is_solvable a (a.findIdx fun t => is_blank t) = true
      · rw [if_pos h2] at h
        have hb : b = Board.from_existing_array a := (Option.some.inj h).symm
        subst hb
        simp only [Board.is_solvable, Bool.or_eq_true, Bool.and_eq_true, beq_iff_eq,
          bne_iff_ne, ne_eq] at h2
        simp only [Board.from_existing_array]
        rcases h2 with ⟨he, ho⟩ | ⟨ho, he⟩
        · exact ⟨fun _ => ho, fun _ => he⟩
        · exact ⟨fun hx => absurd hx ho, fun hx => absurd he hx⟩
      · rw [if_neg h2] at h
        exact ih h
    · rw [if_neg h1] at h
      exact absurd h (by simp)

theorem c5_new_boards_are_solvable_witness :
    Board.new [[2, 1, 3, 4, 5, 6, 7, 8, 9, 10, 11, 12, 13, 14, 15, 0], solvedArray] =
        some (Board.mk solvedArray 15) ∧
      ((4 - (Board.mk solvedArray 15).blank_idx / 4) % 2 = 0 ↔
        ¬ Board.inversions (Board.mk solvedArray 15).array % 2 = 0) :=
  ⟨by decide,
    c5_new_boards_are_solvable [[2, 1, 3, 4, 5, 6, 7, 8, 9, 10, 11, 12, 13, 14, 15, 0], solvedArray]
      (Board.mk solvedArray 15) (by decide)⟩

/-- C8: when the blank sits at a corner (index 0, 3, 12 or 15), exactly two
of the four operations make `process_operation` return `true`. -/
theorem c8_corner_exactly_two_valid (b : Board) (hlen : b.array.length = 16)
    (hc : b.blank_idx = 0 ∨ b.blank_idx = 3 ∨ b.blank_idx = 12 ∨ b.blank_idx = 15) :
    ([Operation.Up, Operation.Down, Operation.Left, Operation.Right].countP
      (fun op => (b.process_operation op).1)) = 2 := by
  rcases b with ⟨arr, k⟩
  simp only at hlen
  rcases hc with hk | hk | hk | hk <;>
    (simp only at hk; subst hk) <;>
      simp [List.countP_cons, Board.process_operation, Operation.offset, hlen] <;>
        norm_num

theorem c8_corner_exactly_two_valid_witness :
    (Board.from_existing_array solvedArray).array.length = 16 ∧
      ([Operation.Up, Operation.Down, Operation.Left, Operation.Right].countP
        (fun op => ((Board.from_existing_array solvedArray).process_operation op).1)) = 2 :=
  ⟨by decide,
    c8_corner_exactly_two_valid (Board.from_existing_array solvedArray) (by decide) (by decide)⟩

lemma Game.pop_board (g : Game) (op : Operation) :
    (g.process_operation op).board = (g.board.process_operation op).2 := by
  simp only [Game.process_operation]
  split <;> rfl

lemma Game.pop_move_count (g : Game) (op : Operation) :
    (g.process_operation op).move_count =
      if (g.board.process_operation op).1 then g.move_count + 1 else g.move_count := by
  simp only [Game.process_operation]
  split <;> rfl

lemma Game.pop_state_solved (g : Game) (op : Operation)
    (h : (g.board.process_operation op).2.is_solved = true) :
    (g.process_operation op).current_state = GameState.Finished := by
  simp [Game.process_operation, h]

lemma Game.pop_state_not_solved (g : Game) (op : Operation)
    (h : (g.board.process_operation op).2.is_solved = false) :
    (g.process_operation op).current_state = g.current_state := by
  simp [Game.process_operation, h]

/-- C9: the game state is monotonic: a game whose `is_done` is `true` stays
done after any further sequence of `process_operation` calls. -/
theorem c9_is_done_monotonic (g : Game) (ops : List Operation) (h : g.is_done = true) :
    (Game.run g ops).is_done = true := by
  induction ops generalizing g with
  | nil => exact h
  | cons op rest ih =>
    simp only [Game.run]
    apply ih
    rw [Game.is_done] at h ⊢
    cases hsv : (g.board.process_operation op).2.is_solved
    · rw [Game.pop_state_not_solved g op hsv]
      exact h
    · rw [Game.pop_state_solved g op hsv]
      rfl

theorem c9_is_done_monotonic_witness :
    (Game.mk (Board.from_existing_array solvedArray) GameState.Finished 0).is_done = true ∧
      (Game.run (Game.mk (Board.from_existing_array solvedArray) GameState.Finished 0)
        [Operation.Down]).is_done = true :=
  ⟨by decide,
    c9_is_done_monotonic (Game.mk (Board.from_existing_array solvedArray) GameState.Finished 0)
      [Operation.Down] (by decide)⟩

lemma run_move_count (g : Game) (ops : List Operation) :
    (Game.run g ops).move_count = g.move_count + Board.countSwaps g.board ops := by
  induction ops generalizing g with
  | nil => simp [Game.run, Board.countSwaps]
  | cons op rest ih =>
    simp only [Game.run, Board.countSwaps]
    rw [ih, Game.pop_move_count, Game.pop_board]
    cases h : (g.board.process_operation op).1
    · simp [h]
    · simp [h]
      omega

/-- C7: starting from a move count of 0, `moves()` after any sequence of
`process_operation` calls equals the number of calls on which the board
reported a swap. -/
theorem c7_move_count_counts_swaps (g : Game) (h0 : g.move_count = 0) (ops : List Operation) :
    (Game.run g ops).moves = Board.countSwaps g.board ops := by
  rw [Game.moves, run_move_count, h0, Nat.zero_add]

theorem c7_move_count_counts_swaps_witness :
    (Game.with_board (Board.from_existing_array solvedArray)).move_count = 0 ∧
      (Game.run (Game.with_board (Board.from_existing_array solvedArray))
          [Operation.Down, Operation.Down]).moves =
        Board.countSwaps (Board.from_existing_array solvedArray)
          [Operation.Down, Operation.Down] ∧
      Board.countSwaps (Board.from_existing_array solvedArray)
          [Operation.Down, Operation.Down] = 2 :=
  ⟨by decide,
    c7_move_count_counts_swaps (Game.with_board (Board.from_existing_array solvedArray))
      (by decide) [Operation.Down, Operation.Down],
    by decide⟩

/-- C3 as stated is false: from `with_board` on the solved array, the
sequence `[Left, Down]` first finishes the game (rejected move, solved
check fires) and then `Down` un-solves the board while the state stays
`Finished`, so `is_done` is `true` on an unsolved board. -/
theorem c3_counterexample_done_but_unsolved :
    (Game.run (Game.with_board (Board.from_existing_array solvedArray))
        [Operation.Left, Operation.Down]).is_done = true ∧
      (Game.run (Game.with_board (Board.from_existing_array solvedArray))
        [Operation.Left, Operation.Down]).board.is_solved = false := by
  decide

lemma done_implies_solved_prefix (g : Game) (ops : List Operation)
    (h : (Game.run g ops).is_done = true) :
    g.is_done = true ∨ ∃ n, n ≤ ops.length ∧
      (Game.run g (ops.take n)).board.is_solved = true := by
  induction ops generalizing g with
  | nil => exact Or.inl h
  | cons op rest ih =>
    simp only [Game.run] at h
    rcases ih (g.process_operation op) h with hd | ⟨n, hn, hs⟩
    · cases hsv : (g.board.process_operation op).2.is_solved
      · left
        rw [Game.is_done] at hd ⊢
        rw [Game.pop_state_not_solved g op hsv] at hd
        exact hd
      · right
        refine ⟨1, by simp, ?_⟩
        simp only [List.take_succ_cons, List.take_zero, Game.run]
        rw [Game.pop_board]
        exact hsv
    · right
      refine ⟨n + 1, by simpa using hn, ?_⟩
      simpa only [List.take_succ_cons, Game.run] using hs

/-- C3 amended: whenever a game reachable from `with_board` reports
`is_done`, the board was solved at the end of some prefix of the processed
operations (in particular right after the call that set `Finished`); the
board need not still be solved afterwards. -/
theorem c3_amended_finished_implies_was_solved (b : Board) (ops : List Operation)
    (h : (Game.run (Game.with_board b) ops).is_done = true) :
    ∃ n, n ≤ ops.length ∧
      (Game.run (Game.with_board b) (ops.take n)).board.is_solved = true := by
  rcases done_implies_solved_prefix (Game.with_board b) ops h with hd | he
  · simp [Game.is_done, Game.with_board] at hd
  · exact he

theorem c3_amended_finished_implies_was_solved_witness :
    (Game.run (Game.with_board (Board.from_existing_array solvedArray))
        [Operation.Left]).is_done = true ∧
      ∃ n, n ≤ [Operation.Left].length ∧
        (Game.run (Game.with_board (Board.from_existing_array solvedArray))
          ([Operation.Left].take n)).board.is_solved = true :=
  ⟨by decide,
    c3_amended_finished_implies_was_solved (Board.from_existing_array solvedArray)
      [Operation.Left] (by decide)⟩

/-- C1: for a well-formed board (16 cells, `blank_idx` indexing the unique
blank), `process_operation` computes `target = blank_idx + offset` with
`Up = +4`, `Down = -4`, `Left = +1`, `Right = -1`; it returns `false` with
the board unchanged when the target leaves `[0, 16)`, when the offset is
`-1` with the blank on the left edge, or when the offset is `+1` with the
target on the left edge; otherwise it swaps the blank with the target cell,
moves `blank_idx` to the target and returns `true`. -/
theorem c1_process_operation_characterization (b : Board) (op : Operation)
    (hwf : b.wf = true) :
    (((b.blank_idx : Int) + op.offset < 0 ∨ 16 ≤ (b.blank_idx : Int) + op.offset ∨
        (op.offset = -1 ∧ b.blank_idx % 4 = 0) ∨
        (op.offset = 1 ∧ ((b.blank_idx : Int) + op.offset) % 4 = 0)) →
      b.process_operation op = (false, b)) ∧
    (¬((b.blank_idx : Int) + op.offset < 0 ∨ 16 ≤ (b.blank_idx : Int) + op.offset ∨
        (op.offset = -1 ∧ b.blank_idx % 4 = 0) ∨
        (op.offset = 1 ∧ ((b.blank_idx : Int) + op.offset) % 4 = 0)) →
      b.process_operation op =
        (true,
          Board.mk (listSwap b.array b.blank_idx ((b.blank_idx : Int) + op.offset).toNat)
            ((b.blank_idx : Int) + op.offset).toNat)) := by
  have hlen : b.array.length = 16 := Board.wf_length hwf
  constructor
  · intro h
    dsimp only [Board.process_operation]
    split_ifs with h1 h2 h3
    · rfl
    · rfl
    · rfl
    · exfalso
      simp at h1 h2 h3
      omega
  · intro h
    dsimp only [Board.process_operation]
    split_ifs with h1 h2 h3
    · exfalso
      simp at h1
      omega
    · exfalso
      simp at h2
      omega
    · exfalso
      simp at h3
      omega
    · rfl

theorem c1_process_operation_characterization_witness :
    (Board.from_existing_array solvedArray).wf = true ∧
      (Board.from_existing_array solvedArray).process_operation Operation.Down =
        (true, Board.mk [1, 2, 3, 4, 5, 6, 7, 8, 9, 10, 11, 0, 13, 14, 15, 12] 11) :=
  ⟨by decide,
    (c1_process_operation_characterization (Board.from_existing_array solvedArray)
      Operation.Down (by decide)).2 (by decide)⟩

lemma cons_set_perm : ∀ (t : List Nat) (m x : Nat), m < t.length →
    List.Perm (t.getD m 0 :: t.set m x) (x :: t) := by
  intro t
  induction t with
  | nil =>
    intro m x h
    exact absurd h (by simp)
  | cons y s ih =>
    intro m x h
    cases m with
    | zero => exact List.Perm.swap x y s
    | succ k =>
      have hk : k < s.length := by simpa using h
      have p1 : List.Perm (s.getD k 0 :: y :: s.set k x) (y :: s.getD k 0 :: s.set k x) :=
        List.Perm.swap y (s.getD k 0) (s.set k x)
      have p2 : List.Perm (y :: s.getD k 0 :: s.set k x) (y :: x :: s) :=
        (ih k x hk).cons y
      have p3 : List.Perm (y :: x :: s) (x :: y :: s) := List.Perm.swap x y s
      exact (p1.trans p2).trans p3

lemma listSwap_perm : ∀ (l : List Nat) (i j : Nat), i < l.length → j < l.length →
    List.Perm (listSwap l i j) l := by
  intro l
  induction l with
  | nil =>
    intro i j hi _
    exact absurd hi (by simp)
  | cons x t ih =>
    intro i j hi hj
    cases i with
    | zero =>
      cases j with
      | zero => exact List.Perm.refl _
      | succ m =>
        have hm : m < t.length := by simpa using hj
        have he : listSwap (x :: t) 0 (m + 1) = t.getD m 0 :: t.set m x := rfl
        rw [he]
        exact cons_set_perm t m x hm
    | succ n =>
      cases j with
      | zero =>
        have hn : n < t.length := by simpa using hi
        have he : listSwap (x :: t) (n + 1) 0 = t.getD n 0 :: t.set n x := rfl
        rw [he]
        exact cons_set_perm t n x hn
      | succ m =>
        have hn : n < t.length := by simpa using hi
        have hm : m < t.length := by simpa using hj
        have he : listSwap (x :: t) (n + 1) (m + 1) = x :: listSwap t n m := rfl
        rw [he]
        exact (ih n m hn hm).cons x

lemma pop_perm_and_bound (b : Board) (op : Operation)
    (hb : b.blank_idx < b.array.length) :
    (b.process_operation op).2.blank_idx < (b.process_operation op).2.array.length ∧
      List.Perm (b.process_operation op).2.array b.array := by
  dsimp only [Board.process_operation]
  split_ifs with h1 h2 h3
  · exact ⟨hb, List.Perm.refl _⟩
  · exact ⟨hb, List.Perm.refl _⟩
  · exact ⟨hb, List.Perm.refl _⟩
  · simp only [Bool.or_eq_true, decide_eq_true_eq, not_or, Bool.not_eq_true] at h1
    have hj : ((b.blank_idx : Int) + op.offset).toNat < b.array.length := by omega
    have hlen : (listSwap b.array b.blank_idx ((b.blank_idx : Int) + op.offset).toNat).length =
        b.array.length := by
      simp [listSwap]
    constructor
    · rw [hlen]
      exact hj
    · exact listSwap_perm b.array b.blank_idx _ hb hj

lemma run_perm_and_bound (b : Board) (ops : List Operation)
    (hb : b.blank_idx < b.array.length) :
    (Board.run b ops).blank_idx < (Board.run b ops).array.length ∧
      List.Perm (Board.run b ops).array b.array := by
  induction ops generalizing b with
  | nil => exact ⟨hb, List.Perm.refl _⟩
  | cons op rest ih =>
    have h1 := pop_perm_and_bound b op hb
    have h2 := ih (b.process_operation op).2 h1.1
    exact ⟨h2.1, h2.2.trans h1.2⟩

/-- C6: on a board whose blank index is in bounds (every board the Rust code
can construct; an out-of-bounds index would make `slice::swap` panic) and
whose 16 cells carry `{0, …, 15}` as the multiset of solved positions, that
multiset is preserved by every sequence of `process_operation` calls. -/
theorem c6_solved_pos_multiset_conserved (b : Board)
    (hb : b.blank_idx < b.array.length)
    (hmul : ((b.array.map get_solved_pos : List Nat) : Multiset Nat) =
      ((List.range 16 : List Nat) : Multiset Nat))
    (ops : List Operation) :
    (((Board.run b ops).array.map get_solved_pos : List Nat) : Multiset Nat) =
      ((List.range 16 : List Nat) : Multiset Nat) := by
  have hperm := (run_perm_and_bound b ops hb).2
  calc (((Board.run b ops).array.map get_solved_pos : List Nat) : Multiset Nat)
      = ((b.array.map get_solved_pos : List Nat) : Multiset Nat) :=
        Quot.sound (hperm.map get_solved_pos)
    _ = ((List.range 16 : List Nat) : Multiset Nat) := hmul

theorem c6_solved_pos_multiset_conserved_witness :
    (Board.from_existing_array solvedArray).blank_idx <
        (Board.from_existing_array solvedArray).array.length ∧
      (((Board.run (Board.from_existing_array solvedArray)
          [Operation.Down, Operation.Right]).array.map get_solved_pos : List Nat) :
        Multiset Nat) = ((List.range 16 : List Nat) : Multiset Nat) :=
  ⟨by decide,
    c6_solved_pos_multiset_conserved (Board.from_existing_array solvedArray) (by decide)
      (by decide) [Operation.Down, Operation.Right]⟩

end FifteenPuzzle
